import Mathlib

/-!
Formal model of the PPT2Manual document layout and assembly engine.

The definitions below are shallow embeddings of the Python sources:

* `src/core/slide_layout_generator.py` / `src/core/pdf_layout_generator.py`
  (grid slot geometry, aspect-fit placement, pre-downscaling, chunking of
  source images into 8-per-page layout pages);
* `src/core/pdf_merger.py` (TOC pagination, two-pass merge with start-page
  assignment, bookmarks, footer page numbers, optimization pass);
* `src/core/ppt_converter.py` (the conversion thread around the merge).

Real-valued quantities (PDF points) are modelled exactly over `ℚ`; Python's
`int()` truncation of nonnegative values is `Int.toNat ∘ Int.floor`.
Filesystem reads are a function `String → Option ℕ` giving each path the page
count of the PDF stored there, or `none` when the file is missing/unreadable.
-/

namespace PPT2Manual

/-- One typographic millimetre in PDF points, as defined by reportlab
(`mm = 72 / 25.4`). -/
def mmPt : ℚ := 360 / 127

/-- Width of an A4 page in points (`210 * mm`), the `page_width` read from
`reportlab.lib.pagesizes.A4` by every generator. -/
def a4Width : ℚ := 210 * mmPt

/-- Height of an A4 page in points (`297 * mm`). -/
def a4Height : ℚ := 297 * mmPt

/-- Page margin of the layout generators (`self.margin = 36`). -/
def pageMargin : ℚ := 36

/-- Gap between grid slots (`self.gap = 12`). -/
def slotGap : ℚ := 12

/-- Slides per row (`self.slides_per_row = 2`). -/
def slidesPerRow : ℕ := 2

/-- Slide rows per page (`self.slides_per_col = 4`). -/
def slidesPerCol : ℕ := 4

/-- Grid capacity per output page (`self.slides_per_page = 8`). -/
def slidesPerPage : ℕ := 8

/-- Vertical space reserved for the footer page number: the literal `- 40`
in the `available_height` computation of both layout generators. -/
def footerReserve : ℚ := 40

/-- Slot geometry computation from `__init__` of both layout generators, with
page size, margin, gap and footer reserve as parameters:
`available_width / cols` by `available_height / rows`.  The source performs
exactly this arithmetic and nothing else: it is total and never validates the
computed dimensions. -/
def slotGeometry (pw ph m g fr : ℚ) (rows cols : ℕ) : ℚ × ℚ :=
  ((pw - 2 * m - ((cols : ℚ) - 1) * g) / (cols : ℚ),
   (ph - 2 * m - ((rows : ℚ) - 1) * g - fr) / (rows : ℚ))

/-- `self.slot_width` as computed in `__init__`. -/
def slotWidth : ℚ :=
  (a4Width - 2 * pageMargin - ((slidesPerRow : ℚ) - 1) * slotGap) / (slidesPerRow : ℚ)

/-- `self.slot_height` as computed in `__init__`. -/
def slotHeight : ℚ :=
  (a4Height - 2 * pageMargin - ((slidesPerCol : ℚ) - 1) * slotGap - footerReserve)
    / (slidesPerCol : ℚ)

/-- `_calculate_slot_position`: bottom-left corner of slot `position` within an
output page, row-major with `row = position // 2` and `col = position % 2`. -/
def slotPosition (position : ℕ) : ℚ × ℚ :=
  (pageMargin + ((position % slidesPerRow : ℕ) : ℚ) * (slotWidth + slotGap),
   a4Height - pageMargin - (((position / slidesPerRow : ℕ) : ℚ) + 1) * (slotHeight + slotGap))

/-- Aspect-fit display size for a source image of `ow × oh` pixels, from
`_draw_slide_with_correct_aspect_ratio` / `_draw_page_with_aspect_ratio`:
if the source aspect exceeds the slot aspect the width is pinned to the slot
width, otherwise the height is pinned to the slot height. -/
def displaySize (ow oh : ℕ) : ℚ × ℚ :=
  let originalAspect : ℚ := (ow : ℚ) / (oh : ℚ)
  let slotAspect : ℚ := slotWidth / slotHeight
  if slotAspect < originalAspect then
    (slotWidth, slotWidth / originalAspect)
  else
    (slotHeight * originalAspect, slotHeight)

/-- Bottom-left corner of the drawn image: the display rectangle is centered
inside the slot (`img_x = slot_x + (slot_width - display_width) / 2`, same for
`y`). -/
def drawOrigin (ow oh position : ℕ) : ℚ × ℚ :=
  let s := slotPosition position
  let d := displaySize ow oh
  (s.1 + (slotWidth - d.1) / 2, s.2 + (slotHeight - d.2) / 2)

/-- Pre-downscale decision before embedding the pixel buffer:
`max_display_dimension = max(display_width, display_height) * 2`; when
`max(original_width, original_height) > max_display_dimension * 2` the buffer
is resized to `(int(ow * sf), int(oh * sf))` with
`sf = max_display_dimension * 2 / max(ow, oh)`; otherwise it is left alone. -/
def preDownscale (ow oh : ℕ) : ℕ × ℕ :=
  let d := displaySize ow oh
  let maxDisplayDimension : ℚ := max d.1 d.2 * 2
  if maxDisplayDimension * 2 < ((max ow oh : ℕ) : ℚ) then
    let scaleFactor : ℚ := maxDisplayDimension * 2 / ((max ow oh : ℕ) : ℚ)
    ((⌊(ow : ℚ) * scaleFactor⌋).toNat, (⌊(oh : ℚ) * scaleFactor⌋).toNat)
  else
    (ow, oh)

/-- Grouping of the source page images into layout pages, from
`create_layout_pdf` / `_create_layout_pdf_from_images`:
`for page_start in range(0, len(images), 8)` with the slice
`images[page_start : page_start + 8]` rendered on one canvas page.  The
`k`-th canvas page receives the slice starting at `8 * k`, and the Python
range has `ceil(len / 8) = (len + 7) / 8` elements. -/
def layoutChunks {α : Type _} (l : List α) : List (List α) :=
  (List.range ((l.length + 7) / 8)).map fun k => (l.drop (8 * k)).take 8

/-- Margin of the table-of-contents page (`margin = 50` in
`_create_table_of_contents_pdf_with_accurate_pages`). -/
def tocMargin : ℚ := 50

/-- Line height of one TOC entry (`line_height = 25`). -/
def tocLineHeight : ℚ := 25

/-- Entry loop of `_create_table_of_contents_pdf_with_accurate_pages`: after
drawing each entry the cursor moves down one line height, and when it drops
below `margin + 50` the canvas starts a new page with the cursor reset to
`page_height - margin`.  Arguments: remaining entries, cursor, pages so far. -/
def tocLoop : ℕ → ℚ → ℕ → ℕ
  | 0, _, pages => pages
  | n + 1, y, pages =>
    let y2 := y - tocLineHeight
    if y2 < tocMargin + 50 then tocLoop n (a4Height - tocMargin) (pages + 1)
    else tocLoop n y2 pages

/-- Number of pages of the generated TOC document for a given entry count;
the cursor starts at `page_height - margin - 80`. -/
def tocPageCount (entries : ℕ) : ℕ :=
  tocLoop entries (a4Height - tocMargin - 80) 1

/-- One record of the caller-supplied `pdf_info_list` of
`merge_pdfs_with_bookmarks`: the `'file'` value plus the optional `'title'`
and `'order'` keys (read with `.get`, so they may be absent). -/
structure PdfEntry where
  file : String
  title : Option String
  order : Option Int
deriving DecidableEq, Inhabited

/-- Sort key of `pdf_info_list.sort(key=lambda x: x.get('order', 0))`. -/
def orderKey (e : PdfEntry) : Int := e.order.getD 0

/-- Comparison relation induced by the sort key. -/
def orderLe (a b : PdfEntry) : Prop := orderKey a ≤ orderKey b

instance : DecidableRel orderLe := fun a b => Int.decLe (orderKey a) (orderKey b)

instance : IsTotal PdfEntry orderLe := ⟨fun a b => Int.le_total (orderKey a) (orderKey b)⟩

instance : IsTrans PdfEntry orderLe := ⟨fun _ _ _ h1 h2 => le_trans h1 h2⟩

/-- Python's `list.sort` is a stable in-place sort by the key.  All stable
sorts by the same key compute the same list, so it is modelled by stable
insertion sort. -/
def pythonSortByOrder (l : List PdfEntry) : List PdfEntry :=
  List.insertionSort orderLe l

/-- One record of the internal `pdf_page_info` list built by the first pass of
`merge_pdfs_with_bookmarks`. -/
structure PageInfo where
  title : String
  file : String
  pageCount : ℕ
  startPageInFinal : ℕ
  order : ℕ
deriving DecidableEq, Inhabited

/-- Default title `f'文档{i + 1}'` used when an entry has no `'title'` key. -/
def defaultTitle (i : ℕ) : String := "文档" ++ toString (i + 1)

/-- First pass of `merge_pdfs_with_bookmarks`: walk the sorted list carrying
the `enumerate` index `i` and the running `total_content_pages`; a path the
filesystem cannot open is skipped (the index still advances), a readable one
contributes a record with `start_page_in_final = total_content_pages + 2`. -/
def collectPageInfo (fs : String → Option ℕ) :
    List PdfEntry → ℕ → ℕ → List PageInfo
  | [], _, _ => []
  | e :: rest, i, total =>
    match fs e.file with
    | some pc =>
      { title := e.title.getD (defaultTitle i), file := e.file, pageCount := pc,
        startPageInFinal := total + 2, order := i }
        :: collectPageInfo fs rest (i + 1) (total + pc)
    | none => collectPageInfo fs rest (i + 1) total

/-- One text insertion performed on a page of the merged document. -/
structure TextInsertion where
  x : ℚ
  y : ℚ
  text : String
  fontsize : ℚ
  fontname : String
deriving DecidableEq, Inhabited

/-- Footer text for 0-based page `p`: `f"- {page_num + 1} -"`. -/
def footerText (p : ℕ) : String := "- " ++ toString (p + 1) ++ " -"

/-- `_add_bottom_page_numbers`: every page of the document receives its folio
at `x = (rect.width - text_width_estimate) / 2` where
`text_width_estimate = len(page_text) * 5`, at `y = rect.height - 40`, drawn
with `fontsize=10` and `fontname="helv"`. -/
def addBottomPageNumbers (w h : ℚ) (total : ℕ) : List TextInsertion :=
  (List.range total).map fun p =>
    { x := (w - ((footerText p).length : ℚ) * 5) / 2, y := h - 40,
      text := footerText p, fontsize := 10, fontname := "helv" }

/-- Bookmark recording of the concatenation loop: each merged document gets a
bookmark at the current 0-based output page cursor, which then advances by the
document's page count. -/
def bookmarksFrom (start : ℕ) : List PageInfo → List (String × ℕ)
  | [] => []
  | p :: rest => (p.title, start) :: bookmarksFrom (start + p.pageCount) rest

/-- Observable outcome of `PDFMerger.merge_pdfs_with_bookmarks`:
`sortedList` is the caller's list after the in-place sort, `success` the
boolean return value; the remaining fields describe the written document when
`success` is true. -/
structure MergeRun where
  sortedList : List PdfEntry
  infoList : List PageInfo
  success : Bool
  tocPages : ℕ
  bookmarks : List (String × ℕ)
  totalPages : ℕ
  footer : List TextInsertion
deriving DecidableEq, Inhabited

/-- Model of `PDFMerger.merge_pdfs_with_bookmarks` over a filesystem `fs`.
The list is sorted in place, page info is collected (first pass), the run
fails when no document was readable, otherwise the TOC document (rendered from
the collected entries) is concatenated with every readable document (second
pass, same filesystem), bookmarks are recorded at each document's first output
page, and footer numbers are stamped on every page of the result. -/
def mergePdfsWithBookmarks (fs : String → Option ℕ) (l : List PdfEntry) : MergeRun :=
  let sorted := pythonSortByOrder l
  let info := collectPageInfo fs sorted 0 0
  if info.isEmpty then
    { sortedList := sorted, infoList := info, success := false, tocPages := 0,
      bookmarks := [], totalPages := 0, footer := [] }
  else
    let toc := tocPageCount info.length
    let total := toc + (info.map PageInfo.pageCount).sum
    { sortedList := sorted, infoList := info, success := true, tocPages := toc,
      bookmarks := bookmarksFrom toc info, totalPages := total,
      footer := addBottomPageNumbers a4Width a4Height total }

/-- Caller-visible state after `PPTConverterThread.run`: whether
`conversion_finished` fired, whether `error_occurred` fired, and the document
left at the output path (`none` when nothing was written). -/
structure RunOutcome where
  finished : Bool
  errored : Bool
  output : Option MergeRun
deriving DecidableEq

/-- `PDFMerger.optimize_pdf` on the already-written document: the compacted
copy goes to a temporary file that is then moved over the input, so under any
failure (`ok = false`, every exception is caught) the original document is
untouched and `False` is returned; a successful compaction
(`garbage=4, deflate=True, clean=True`) preserves the page-level content
modelled here.  `ok` is the environment's verdict on the save. -/
def optimizePdf (ok : Bool) (doc : MergeRun) : MergeRun × Bool :=
  if ok then (doc, true) else (doc, false)

/-- Steps 2 and 3 of `PPTConverterThread.run` once all PPT files converted:
merge, then a best-effort `optimize_pdf` whose boolean result the thread
ignores before emitting `conversion_finished`. -/
def runMergeAndOptimize (fs : String → Option ℕ) (mergeInput : List PdfEntry)
    (optOk : Bool) : RunOutcome :=
  let m := mergePdfsWithBookmarks fs mergeInput
  if m.success then
    let opt := optimizePdf optOk m
    { finished := true, errored := false, output := some opt.1 }
  else
    { finished := false, errored := true, output := none }

end PPT2Manual

namespace PPT2Manual

/-! ### Basic facts about the slot geometry constants -/

theorem slotWidth_eq : slotWidth = 32466 / 127 := by
  norm_num [slotWidth, a4Width, mmPt, pageMargin, slotGap, slidesPerRow]

theorem slotHeight_eq : slotHeight = 22031 / 127 := by
  norm_num [slotHeight, a4Height, mmPt, pageMargin, slotGap, footerReserve, slidesPerCol]

theorem slotWidth_pos : 0 < slotWidth := by rw [slotWidth_eq]; norm_num

theorem slotHeight_pos : 0 < slotHeight := by rw [slotHeight_eq]; norm_num

/-! ### Aspect-fit facts shared by the placement and pre-downscale claims -/

theorem displaySize_eq (ow oh : ℕ) :
    displaySize ow oh
      = if slotWidth / slotHeight < (ow : ℚ) / (oh : ℚ) then
          (slotWidth, slotWidth / ((ow : ℚ) / (oh : ℚ)))
        else (slotHeight * ((ow : ℚ) / (oh : ℚ)), slotHeight) := rfl

theorem displaySize_pos (ow oh : ℕ) (hw : 0 < ow) (hh : 0 < oh) :
    0 < (displaySize ow oh).1 ∧ 0 < (displaySize ow oh).2 := by
  have hwQ : (0 : ℚ) < (ow : ℚ) := by exact_mod_cast hw
  have hhQ : (0 : ℚ) < (oh : ℚ) := by exact_mod_cast hh
  have hq : (0 : ℚ) < (ow : ℚ) / (oh : ℚ) := div_pos hwQ hhQ
  rw [displaySize_eq]
  split
  · exact ⟨slotWidth_pos, div_pos slotWidth_pos hq⟩
  · exact ⟨mul_pos slotHeight_pos hq, slotHeight_pos⟩

theorem displaySize_le (ow oh : ℕ) (hw : 0 < ow) (hh : 0 < oh) :
    (displaySize ow oh).1 ≤ slotWidth ∧ (displaySize ow oh).2 ≤ slotHeight := by
  have hwQ : (0 : ℚ) < (ow : ℚ) := by exact_mod_cast hw
  have hhQ : (0 : ℚ) < (oh : ℚ) := by exact_mod_cast hh
  have hq : (0 : ℚ) < (ow : ℚ) / (oh : ℚ) := div_pos hwQ hhQ
  have hWS : slotHeight * (slotWidth / slotHeight) = slotWidth :=
    mul_div_cancel₀ slotWidth (ne_of_gt slotHeight_pos)
  rw [displaySize_eq]
  split
  · rename_i hbr
    refine ⟨le_refl _, ?_⟩
    rw [div_le_iff₀ hq]
    calc slotWidth = slotHeight * (slotWidth / slotHeight) := hWS.symm
      _ ≤ slotHeight * ((ow : ℚ) / (oh : ℚ)) :=
          mul_le_mul_of_nonneg_left (le_of_lt hbr) (le_of_lt slotHeight_pos)
  · rename_i hbr
    push_neg at hbr
    refine ⟨?_, le_refl _⟩
    calc slotHeight * ((ow : ℚ) / (oh : ℚ)) ≤ slotHeight * (slotWidth / slotHeight) :=
          mul_le_mul_of_nonneg_left hbr (le_of_lt slotHeight_pos)
      _ = slotWidth := hWS

theorem displaySize_aspect (ow oh : ℕ) (hw : 0 < ow) (hh : 0 < oh) :
    (displaySize ow oh).1 * (oh : ℚ) = (displaySize ow oh).2 * (ow : ℚ) := by
  have hwQ : ((ow : ℚ)) ≠ 0 := by positivity
  have hhQ : ((oh : ℚ)) ≠ 0 := by positivity
  rw [displaySize_eq]
  split <;> (field_simp; try ring)

/-- Aspect-fit placement contract for one slide at one slot: the display
rectangle is positive, contained in the slot, touches the slot boundary on at
least one axis with the branch selection of the source, preserves the source
aspect, and splits the residual margins evenly on both axes. -/
def AspectFitOk (ow oh position : ℕ) : Prop :=
  (0 < (displaySize ow oh).1 ∧ 0 < (displaySize ow oh).2)
  ∧ ((displaySize ow oh).1 ≤ slotWidth ∧ (displaySize ow oh).2 ≤ slotHeight)
  ∧ ((displaySize ow oh).1 = slotWidth ∨ (displaySize ow oh).2 = slotHeight)
  ∧ (slotWidth / slotHeight < (ow : ℚ) / (oh : ℚ) → (displaySize ow oh).1 = slotWidth)
  ∧ ((ow : ℚ) / (oh : ℚ) ≤ slotWidth / slotHeight → (displaySize ow oh).2 = slotHeight)
  ∧ (displaySize ow oh).1 * (oh : ℚ) = (displaySize ow oh).2 * (ow : ℚ)
  ∧ ((slotPosition position).1 ≤ (drawOrigin ow oh position).1
      ∧ (drawOrigin ow oh position).1 + (displaySize ow oh).1
          ≤ (slotPosition position).1 + slotWidth)
  ∧ ((slotPosition position).2 ≤ (drawOrigin ow oh position).2
      ∧ (drawOrigin ow oh position).2 + (displaySize ow oh).2
          ≤ (slotPosition position).2 + slotHeight)
  ∧ (drawOrigin ow oh position).1 - (slotPosition position).1
      = ((slotPosition position).1 + slotWidth)
        - ((drawOrigin ow oh position).1 + (displaySize ow oh).1)
  ∧ (drawOrigin ow oh position).2 - (slotPosition position).2
      = ((slotPosition position).2 + slotHeight)
        - ((drawOrigin ow oh position).2 + (displaySize ow oh).2)

/-- C4: for every source image with positive pixel dimensions and every slot,
the aspect-fit computation yields a rectangle contained in the slot touching
its boundary on at least one axis (width pinned when the source aspect exceeds
the slot aspect, height pinned otherwise), preserving the source aspect and
centering the residual margins. -/
theorem aspectFit_contained_centered (ow oh position : ℕ)
    (hw : 0 < ow) (hh : 0 < oh) : AspectFitOk ow oh position := by
  have hpos := displaySize_pos ow oh hw hh
  have hle := displaySize_le ow oh hw hh
  have haspect := displaySize_aspect ow oh hw hh
  have hO1 : (drawOrigin ow oh position).1
      = (slotPosition position).1 + (slotWidth - (displaySize ow oh).1) / 2 := rfl
  have hO2 : (drawOrigin ow oh position).2
      = (slotPosition position).2 + (slotHeight - (displaySize ow oh).2) / 2 := rfl
  have hbranch : ((displaySize ow oh).1 = slotWidth ∨ (displaySize ow oh).2 = slotHeight)
      ∧ (slotWidth / slotHeight < (ow : ℚ) / (oh : ℚ) → (displaySize ow oh).1 = slotWidth)
      ∧ ((ow : ℚ) / (oh : ℚ) ≤ slotWidth / slotHeight →
          (displaySize ow oh).2 = slotHeight) := by
    rw [displaySize_eq]
    split
    · rename_i hbr
      exact ⟨Or.inl rfl, fun _ => rfl, fun hc => absurd hbr (not_lt.mpr hc)⟩
    · rename_i hbr
      exact ⟨Or.inr rfl, fun hc => absurd hc hbr, fun _ => rfl⟩
  refine ⟨hpos, hle, hbranch.1, hbranch.2.1, hbranch.2.2, haspect, ?_, ?_, ?_, ?_⟩
  · constructor
    · rw [hO1]; linarith [hle.1]
    · rw [hO1]; linarith [hle.1]
  · constructor
    · rw [hO2]; linarith [hle.2]
    · rw [hO2]; linarith [hle.2]
  · rw [hO1]; ring
  · rw [hO2]; ring

/-- C4 witness at a concrete 16:9 source image in slot 0. -/
theorem aspectFit_contained_centered_witness :
    0 < 1600 ∧ 0 < 900 ∧ AspectFitOk 1600 900 0 :=
  ⟨by decide, by decide,
    aspectFit_contained_centered 1600 900 0 (by decide) (by decide)⟩

end PPT2Manual

namespace PPT2Manual

/-! ### Pre-downscale decision (C5) -/

/-- Pre-downscale contract as the code implements it: when the larger source
pixel dimension exceeds four times the larger display dimension, the buffer is
resampled so its larger dimension becomes `int(4 * maxDisplay)` — four times,
not two times, the larger display dimension — shrinking both dimensions;
otherwise the buffer is embedded unscaled. -/
def PreDownscaleOk (ow oh : ℕ) : Prop :=
  (¬ (4 * max (displaySize ow oh).1 (displaySize ow oh).2 < ((max ow oh : ℕ) : ℚ)) →
      preDownscale ow oh = (ow, oh))
  ∧ (4 * max (displaySize ow oh).1 (displaySize ow oh).2 < ((max ow oh : ℕ) : ℚ) →
      max (preDownscale ow oh).1 (preDownscale ow oh).2
          = (⌊4 * max (displaySize ow oh).1 (displaySize ow oh).2⌋).toNat
        ∧ (preDownscale ow oh).1 ≤ ow ∧ (preDownscale ow oh).2 ≤ oh)

theorem preDownscale_eq (ow oh : ℕ) :
    preDownscale ow oh
      = if max (displaySize ow oh).1 (displaySize ow oh).2 * 2 * 2
            < ((max ow oh : ℕ) : ℚ) then
          ((⌊(ow : ℚ) * (max (displaySize ow oh).1 (displaySize ow oh).2 * 2 * 2
              / ((max ow oh : ℕ) : ℚ))⌋).toNat,
           (⌊(oh : ℚ) * (max (displaySize ow oh).1 (displaySize ow oh).2 * 2 * 2
              / ((max ow oh : ℕ) : ℚ))⌋).toNat)
        else (ow, oh) := rfl

/-- C5 (amended): the threshold is four times the larger display dimension as
the claim states, but the resample target is `4 ×` — not `2 ×` — the larger
display dimension (truncated to an integer), and both pixel dimensions
shrink. -/
theorem preDownscale_spec (ow oh : ℕ) (hw : 0 < ow) (hh : 0 < oh) :
    PreDownscaleOk ow oh := by
  have hpos := displaySize_pos ow oh hw hh
  set d1 := (displaySize ow oh).1 with hd1
  set d2 := (displaySize ow oh).2 with hd2
  have hmd : 0 < max d1 d2 := lt_max_of_lt_left hpos.1
  set md := max d1 d2 with hmd'
  have hform : md * 2 * 2 = 4 * md := by ring
  constructor
  · intro hnc
    rw [preDownscale_eq]
    rw [if_neg]
    rw [← hd1, ← hd2, ← hmd', hform]
    exact hnc
  · intro hc
    have hM : (0 : ℚ) < ((max ow oh : ℕ) : ℚ) := lt_trans (by positivity) hc
    have hMne : ((max ow oh : ℕ) : ℚ) ≠ 0 := ne_of_gt hM
    set sf : ℚ := md * 2 * 2 / ((max ow oh : ℕ) : ℚ) with hsf
    have hsfpos : 0 < sf := div_pos (by positivity) hM
    have hsflt : sf < 1 := by
      rw [hsf, div_lt_one hM]
      linarith [hc, hform]
    have hres : preDownscale ow oh
        = ((⌊(ow : ℚ) * sf⌋).toNat, (⌊(oh : ℚ) * sf⌋).toNat) := by
      rw [preDownscale_eq, if_pos]
      rw [← hd1, ← hd2, ← hmd', hform]
      exact hc
    have howQ : (0 : ℚ) < (ow : ℚ) := by exact_mod_cast hw
    have hohQ : (0 : ℚ) < (oh : ℚ) := by exact_mod_cast hh
    have hshrink1 : (⌊(ow : ℚ) * sf⌋).toNat ≤ ow := by
      have h1 : (ow : ℚ) * sf ≤ (ow : ℚ) := by
        nlinarith [hsflt, hsfpos, howQ]
      have h2 : ⌊(ow : ℚ) * sf⌋ ≤ ⌊(ow : ℚ)⌋ := Int.floor_le_floor h1
      rw [Int.floor_natCast] at h2
      calc (⌊(ow : ℚ) * sf⌋).toNat ≤ ((ow : ℤ)).toNat := Int.toNat_le_toNat h2
        _ = ow := Int.toNat_natCast ow
    have hshrink2 : (⌊(oh : ℚ) * sf⌋).toNat ≤ oh := by
      have h1 : (oh : ℚ) * sf ≤ (oh : ℚ) := by
        nlinarith [hsflt, hsfpos, hohQ]
      have h2 : ⌊(oh : ℚ) * sf⌋ ≤ ⌊(oh : ℚ)⌋ := Int.floor_le_floor h1
      rw [Int.floor_natCast] at h2
      calc (⌊(oh : ℚ) * sf⌋).toNat ≤ ((oh : ℤ)).toNat := Int.toNat_le_toNat h2
        _ = oh := Int.toNat_natCast oh
    refine ⟨?_, by rw [hres]; exact hshrink1, by rw [hres]; exact hshrink2⟩
    rw [hres]
    rcases Nat.le_total oh ow with hcase | hcase
    · have hMow : (max ow oh : ℕ) = ow := Nat.max_eq_left hcase
      have hmax : (ow : ℚ) * sf = 4 * md := by
        rw [hsf, hMow, hform]
        field_simp
      have hle : (oh : ℚ) * sf ≤ (ow : ℚ) * sf :=
        mul_le_mul_of_nonneg_right (by exact_mod_cast hcase) (le_of_lt hsfpos)
      have hfl : ⌊(oh : ℚ) * sf⌋ ≤ ⌊(ow : ℚ) * sf⌋ := Int.floor_le_floor hle
      have : max (⌊(ow : ℚ) * sf⌋).toNat (⌊(oh : ℚ) * sf⌋).toNat
          = (⌊(ow : ℚ) * sf⌋).toNat := Nat.max_eq_left (Int.toNat_le_toNat hfl)
      rw [this, hmax]
    · have hMoh : (max ow oh : ℕ) = oh := Nat.max_eq_right hcase
      have hmax : (oh : ℚ) * sf = 4 * md := by
        rw [hsf, hMoh, hform]
        field_simp
      have hle : (ow : ℚ) * sf ≤ (oh : ℚ) * sf :=
        mul_le_mul_of_nonneg_right (by exact_mod_cast hcase) (le_of_lt hsfpos)
      have hfl : ⌊(ow : ℚ) * sf⌋ ≤ ⌊(oh : ℚ) * sf⌋ := Int.floor_le_floor hle
      have : max (⌊(ow : ℚ) * sf⌋).toNat (⌊(oh : ℚ) * sf⌋).toNat
          = (⌊(oh : ℚ) * sf⌋).toNat := Nat.max_eq_right (Int.toNat_le_toNat hfl)
      rw [this, hmax]

/-- C5 witness at a concrete 5000 × 5000 source image. -/
theorem preDownscale_spec_witness :
    0 < 5000 ∧ 0 < 5000 ∧ PreDownscaleOk 5000 5000 :=
  ⟨by decide, by decide, preDownscale_spec 5000 5000 (by decide) (by decide)⟩

/-- C5 counterexample: a 10000 × 10000 source image is resampled to
693 × 693 pixels, strictly more than twice the larger display dimension
(2 × 22031/127 ≈ 346.9), refuting the claimed `2 ×` resample target. -/
theorem preDownscale_four_times_cex :
    preDownscale 10000 10000 = (693, 693)
    ∧ 2 * max (displaySize 10000 10000).1 (displaySize 10000 10000).2 < (693 : ℚ) := by
  have hd : displaySize 10000 10000 = (22031 / 127, 22031 / 127) := by
    rw [displaySize_eq, if_neg]
    · rw [slotHeight_eq]; norm_num
    · rw [slotWidth_eq, slotHeight_eq]; push_neg; norm_num
  constructor
  · have hcond : max (22031 / 127 : ℚ) (22031 / 127) * 2 * 2
        < ((max 10000 10000 : ℕ) : ℚ) := by norm_num
    rw [preDownscale_eq, hd, if_pos hcond]
    simp only [max_self, Nat.max_self]
    have hfl : ⌊((10000 : ℕ) : ℚ) * (22031 / 127 * 2 * 2 / ((10000 : ℕ) : ℚ))⌋
        = 693 := by
      rw [Int.floor_eq_iff]
      constructor <;> norm_num
    rw [hfl]
    decide
  · rw [hd]
    simp only [max_self]
    norm_num

/-! ### Slot geometry totality (C6) -/

/-- C6 (amended): the slot geometry computation is a pure total function: with
the hard-coded A4 page, margin 36, gap 12 and footer reserve 40 it yields the
positive slot dimensions `32466/127 × 22031/127`; no validity check and no
`LayoutError` exist in the code. -/
theorem slotGeometry_constants_positive :
    slotGeometry a4Width a4Height pageMargin slotGap footerReserve slidesPerCol slidesPerRow
        = (slotWidth, slotHeight)
    ∧ slotWidth = 32466 / 127 ∧ slotHeight = 22031 / 127
    ∧ 0 < slotWidth ∧ 0 < slotHeight :=
  ⟨rfl, slotWidth_eq, slotHeight_eq, slotWidth_pos, slotHeight_pos⟩

/-- C6 counterexample: with margins and gaps exceeding the page size the
computation still produces slots — with negative dimensions — rather than
failing: no rejection path exists. -/
theorem slotGeometry_no_rejection_cex :
    slotGeometry 100 100 60 12 40 4 2 = (-16, -24)
    ∧ (slotGeometry 100 100 60 12 40 4 2).1 < 0 := by
  constructor <;> norm_num [slotGeometry]

end PPT2Manual

namespace PPT2Manual

/-! ### Grid page renderer (C3) -/

/-- Grid layout contract: the renderer emits exactly `ceil(N/8)` output pages
(`(N + 7) / 8` in natural division, characterized by the two bounds); the
image at 0-based index `i` sits at slot `i % 8` of output page `i / 8`; every
page but the last is full, and the last holds `N % 8` entries when `N % 8`
is nonzero (otherwise 8).  Slot `k` sits in grid column `k % 2` of grid row
`k / 2`: row-major, 2 per row, 4 rows per page. -/
def GridLayoutOk {α : Type _} (l : List α) : Prop :=
  (layoutChunks l).length = (l.length + 7) / 8
  ∧ l.length ≤ 8 * ((l.length + 7) / 8)
  ∧ 8 * ((l.length + 7) / 8) < l.length + 8
  ∧ (∀ i : ℕ, ((layoutChunks l).getD (i / 8) [])[i % 8]? = l[i]?)
  ∧ (∀ c ∈ (layoutChunks l).dropLast, c.length = 8)
  ∧ (∀ c, (layoutChunks l).getLast? = some c →
      c.length = if l.length % 8 = 0 then 8 else l.length % 8)
  ∧ (∀ k : ℕ, slotPosition k
      = (pageMargin + ((k % 2 : ℕ) : ℚ) * (slotWidth + slotGap),
         a4Height - pageMargin - (((k / 2 : ℕ) : ℚ) + 1) * (slotHeight + slotGap)))

theorem layoutChunks_length {α : Type _} (l : List α) :
    (layoutChunks l).length = (l.length + 7) / 8 := by
  simp [layoutChunks]

theorem layoutChunks_getElem? {α : Type _} (l : List α) (k : ℕ)
    (hk : k < (l.length + 7) / 8) :
    (layoutChunks l)[k]? = some ((l.drop (8 * k)).take 8) := by
  unfold layoutChunks
  rw [List.getElem?_map, List.getElem?_range hk]
  rfl

/-- C3: for every non-empty image list the grid page renderer emits exactly
`ceil(N/8)` pages, places image `i` at slot `i % 8` of page `i / 8`, fills
every page but possibly the last, and the last page holds `N % 8` entries when
that is nonzero. -/
theorem gridLayout_chunks_spec {α : Type _} (l : List α) (hne : l ≠ []) :
    GridLayoutOk l := by
  have hlen := layoutChunks_length l
  refine ⟨hlen, by omega, by omega, ?_, ?_, ?_, fun k => rfl⟩
  · intro i
    by_cases hi : i / 8 < (l.length + 7) / 8
    · rw [List.getD_eq_getElem?_getD, layoutChunks_getElem? l (i / 8) hi]
      simp only [Option.getD_some]
      rw [List.getElem?_take_of_lt (Nat.mod_lt _ (by norm_num)), List.getElem?_drop]
      congr 1
      omega
    · rw [List.getD_eq_getElem?_getD, List.getElem?_eq_none (by omega : (layoutChunks l).length ≤ i / 8)]
      simp only [Option.getD_none, List.getElem?_nil]
      rw [eq_comm, List.getElem?_eq_none]
      omega
  · intro c hc
    rw [List.mem_iff_getElem?] at hc
    obtain ⟨j, hj⟩ := hc
    rw [List.getElem?_dropLast] at hj
    by_cases hjlt : j < (layoutChunks l).length - 1
    · rw [if_pos hjlt] at hj
      have hjlt2 : j < (l.length + 7) / 8 := by omega
      rw [layoutChunks_getElem? l j hjlt2] at hj
      have hcval : c = (l.drop (8 * j)).take 8 := by
        injection hj with h
        exact h.symm
      subst hcval
      simp only [List.length_take, List.length_drop]
      omega
    · rw [if_neg hjlt] at hj
      exact absurd hj (by simp)
  · intro c hc
    have hpos : 0 < l.length := List.length_pos.mpr hne
    have hd : 0 < (l.length + 7) / 8 := by omega
    rw [List.getLast?_eq_getElem?, hlen] at hc
    rw [layoutChunks_getElem? l ((l.length + 7) / 8 - 1) (by omega)] at hc
    have hcval : c = (l.drop (8 * ((l.length + 7) / 8 - 1))).take 8 := by
      injection hc with h
      exact h.symm
    subst hcval
    simp only [List.length_take, List.length_drop]
    split <;> omega

/-- C3 witness at a concrete three-image list. -/
theorem gridLayout_chunks_spec_witness :
    ([1, 2, 3] : List ℕ) ≠ [] ∧ GridLayoutOk ([1, 2, 3] : List ℕ) :=
  ⟨by decide, gridLayout_chunks_spec [1, 2, 3] (by decide)⟩

end PPT2Manual

namespace PPT2Manual

/-! ### Structural lemmas about the merge model -/

theorem mergeRun_sortedList (fs : String → Option ℕ) (l : List PdfEntry) :
    (mergePdfsWithBookmarks fs l).sortedList = pythonSortByOrder l := by
  unfold mergePdfsWithBookmarks
  dsimp only
  split <;> rfl

theorem mergeRun_infoList (fs : String → Option ℕ) (l : List PdfEntry) :
    (mergePdfsWithBookmarks fs l).infoList
      = collectPageInfo fs (pythonSortByOrder l) 0 0 := by
  unfold mergePdfsWithBookmarks
  dsimp only
  split <;> rfl

theorem mergeRun_success (fs : String → Option ℕ) (l : List PdfEntry) :
    (mergePdfsWithBookmarks fs l).success
      = !(collectPageInfo fs (pythonSortByOrder l) 0 0).isEmpty := by
  unfold mergePdfsWithBookmarks
  dsimp only
  split
  · rename_i h
    rw [h]
    rfl
  · rename_i h
    rw [Bool.eq_false_iff.mpr h]
    rfl

theorem mergeRun_totalPages (fs : String → Option ℕ) (l : List PdfEntry)
    (hs : (mergePdfsWithBookmarks fs l).success = true) :
    (mergePdfsWithBookmarks fs l).totalPages
      = tocPageCount (mergePdfsWithBookmarks fs l).infoList.length
        + ((mergePdfsWithBookmarks fs l).infoList.map PageInfo.pageCount).sum := by
  rw [mergeRun_infoList]
  unfold mergePdfsWithBookmarks at hs ⊢
  dsimp only at hs ⊢
  split at hs
  · exact absurd hs (by simp)
  · rename_i h
    rw [if_neg h]

theorem mergeRun_footer (fs : String → Option ℕ) (l : List PdfEntry)
    (hs : (mergePdfsWithBookmarks fs l).success = true) :
    (mergePdfsWithBookmarks fs l).footer
      = addBottomPageNumbers a4Width a4Height (mergePdfsWithBookmarks fs l).totalPages := by
  rw [mergeRun_totalPages fs l hs, mergeRun_infoList]
  unfold mergePdfsWithBookmarks at hs ⊢
  dsimp only at hs ⊢
  split at hs
  · exact absurd hs (by simp)
  · rename_i h
    rw [if_neg h]

end PPT2Manual

namespace PPT2Manual

/-! ### First-pass page info facts -/

theorem collectPageInfo_start (fs : String → Option ℕ) :
    ∀ (rest : List PdfEntry) (i total j : ℕ),
      j < (collectPageInfo fs rest i total).length →
      ((collectPageInfo fs rest i total).getD j default).startPageInFinal
        = total + 2
          + (((collectPageInfo fs rest i total).take j).map PageInfo.pageCount).sum
  | [], i, total, j => by
    intro h
    simp [collectPageInfo] at h
  | e :: rest, i, total, j => by
    intro h
    cases hfe : fs e.file with
    | none =>
      simp only [collectPageInfo, hfe] at h ⊢
      exact collectPageInfo_start fs rest (i + 1) total j h
    | some pc =>
      simp only [collectPageInfo, hfe] at h ⊢
      cases j with
      | zero => simp
      | succ j' =>
        simp only [List.getD_cons_succ, List.take_succ_cons, List.map_cons,
          List.sum_cons]
        have hlen : j' < (collectPageInfo fs rest (i + 1) (total + pc)).length := by
          simpa using h
        have := collectPageInfo_start fs rest (i + 1) (total + pc) j' hlen
        omega

theorem collectPageInfo_files (fs : String → Option ℕ) :
    ∀ (rest : List PdfEntry) (i total : ℕ),
      (collectPageInfo fs rest i total).map PageInfo.file
        = (rest.filter fun e => (fs e.file).isSome).map PdfEntry.file
  | [], _, _ => rfl
  | e :: rest, i, total => by
    cases hfe : fs e.file with
    | none =>
      simp only [collectPageInfo, hfe, List.filter_cons]
      rw [if_neg (by simp)]
      exact collectPageInfo_files fs rest (i + 1) total
    | some pc =>
      simp only [collectPageInfo, hfe, List.filter_cons, List.map_cons]
      rw [if_pos (by simp)]
      simp only [List.map_cons]
      rw [collectPageInfo_files fs rest (i + 1) (total + pc)]

theorem collectPageInfo_chain (fs : String → Option ℕ) :
    ∀ (rest : List PdfEntry) (i total : ℕ),
      List.Chain' (fun a b => b.startPageInFinal = a.startPageInFinal + a.pageCount)
        (collectPageInfo fs rest i total)
  | [], _, _ => List.chain'_nil
  | e :: rest, i, total => by
    cases hfe : fs e.file with
    | none =>
      simp only [collectPageInfo, hfe]
      exact collectPageInfo_chain fs rest (i + 1) total
    | some pc =>
      simp only [collectPageInfo, hfe]
      rw [List.chain'_cons']
      refine ⟨?_, collectPageInfo_chain fs rest (i + 1) (total + pc)⟩
      intro b hb
      cases hcl : collectPageInfo fs rest (i + 1) (total + pc) with
      | nil => rw [hcl] at hb; simp at hb
      | cons x t =>
        rw [hcl] at hb
        simp only [List.head?_cons, Option.mem_def, Option.some.injEq] at hb
        subst hb
        have hx := collectPageInfo_start fs rest (i + 1) (total + pc) 0
          (by rw [hcl]; simp)
        rw [hcl] at hx
        simp only [List.getD_cons_zero, List.take_zero, List.map_nil,
          List.sum_nil, Nat.add_zero] at hx
        simp only [hx]
        omega

/-- Sum of a projection over a non-empty list splits into the prefix before
the last element plus the last element. -/
theorem map_sum_take_last {α : Type _} (f : α → ℕ) (d : α) :
    ∀ (L : List α), L ≠ [] →
      (L.map f).sum
        = ((L.take (L.length - 1)).map f).sum + f (L.getD (L.length - 1) d)
  | [], h => absurd rfl h
  | [a], _ => by simp
  | a :: b :: t, _ => by
    have ih := map_sum_take_last f d (b :: t) (by simp)
    simp only [List.map_cons, List.sum_cons, List.length_cons] at ih ⊢
    simp only [Nat.add_sub_cancel] at ih ⊢
    rw [List.take_succ_cons, List.getD_cons_succ, List.map_cons, List.sum_cons]
    omega

end PPT2Manual

namespace PPT2Manual

/-! ### TOC page count evaluations -/

theorem tocPageCount_one : tocPageCount 1 = 1 := by
  norm_num [tocPageCount, tocLoop, tocMargin, tocLineHeight, a4Height, mmPt]

theorem tocPageCount_two : tocPageCount 2 = 1 := by
  norm_num [tocPageCount, tocLoop, tocMargin, tocLineHeight, a4Height, mmPt]

theorem tocPageCount_twentysix : tocPageCount 26 = 2 := by
  norm_num [tocPageCount, tocLoop, tocMargin, tocLineHeight, a4Height, mmPt]

theorem mergeRun_tocPages (fs : String → Option ℕ) (l : List PdfEntry)
    (hs : (mergePdfsWithBookmarks fs l).success = true) :
    (mergePdfsWithBookmarks fs l).tocPages
      = tocPageCount (mergePdfsWithBookmarks fs l).infoList.length := by
  rw [mergeRun_infoList]
  unfold mergePdfsWithBookmarks at hs ⊢
  dsimp only at hs ⊢
  split at hs
  · exact absurd hs (by simp)
  · rename_i h
    rw [if_neg h]

/-- Concrete merge run with 26 single-page documents, enough TOC entries to
overflow the first TOC page. -/
def overflowRun : MergeRun :=
  mergePdfsWithBookmarks (fun _ => some 1) (List.replicate 26 ⟨"f", none, none⟩)

theorem overflowRun_tocPages : overflowRun.tocPages = 2 := by
  have hlen : (mergePdfsWithBookmarks (fun _ => some 1)
      (List.replicate 26 (⟨"f", none, none⟩ : PdfEntry))).infoList.length = 26 := by
    decide
  have h := mergeRun_tocPages (fun _ => some 1)
      (List.replicate 26 (⟨"f", none, none⟩ : PdfEntry)) (by decide)
  unfold overflowRun
  rw [h, hlen, tocPageCount_twentysix]

theorem overflowRun_totalPages : overflowRun.totalPages = 28 := by
  have hlen : (mergePdfsWithBookmarks (fun _ => some 1)
      (List.replicate 26 (⟨"f", none, none⟩ : PdfEntry))).infoList.length = 26 := by
    decide
  have hsum : ((mergePdfsWithBookmarks (fun _ => some 1)
      (List.replicate 26 (⟨"f", none, none⟩ : PdfEntry))).infoList.map
        PageInfo.pageCount).sum = 26 := by decide
  have h := mergeRun_totalPages (fun _ => some 1)
      (List.replicate 26 (⟨"f", none, none⟩ : PdfEntry)) (by decide)
  unfold overflowRun
  rw [h, hlen, hsum, tocPageCount_twentysix]

/-! ### C1: start pages as prefix sums -/

/-- C1 (amended): every collected document's `start_page_in_final` equals
`2 +` the prefix sum of the page counts of the documents merged before it —
the code hard-codes a one-page TOC plus 1-based numbering, and never feeds the
actual TOC page count (a function of the entry count) back into the start
pages. -/
theorem merge_startPage_prefixSum (fs : String → Option ℕ) (l : List PdfEntry)
    (i : ℕ) (h : i < (mergePdfsWithBookmarks fs l).infoList.length) :
    ((mergePdfsWithBookmarks fs l).infoList.getD i default).startPageInFinal
      = 2 + (((mergePdfsWithBookmarks fs l).infoList.take i).map
          PageInfo.pageCount).sum := by
  rw [mergeRun_infoList] at h ⊢
  have := collectPageInfo_start fs (pythonSortByOrder l) 0 0 i h
  omega

/-- C1 witness at two three-page documents. -/
theorem merge_startPage_prefixSum_witness :
    1 < (mergePdfsWithBookmarks (fun _ => some 3)
        [⟨"a", none, none⟩, ⟨"b", none, none⟩]).infoList.length
    ∧ ((mergePdfsWithBookmarks (fun _ => some 3)
        [⟨"a", none, none⟩, ⟨"b", none, none⟩]).infoList.getD 1 default).startPageInFinal
      = 2 + (((mergePdfsWithBookmarks (fun _ => some 3)
          [⟨"a", none, none⟩, ⟨"b", none, none⟩]).infoList.take 1).map
            PageInfo.pageCount).sum :=
  ⟨by decide, merge_startPage_prefixSum _ _ 1 (by decide)⟩

/-- C1 counterexample: with 26 single-page documents the TOC spans 2 pages,
yet the first document's `start_page_in_final` is 2 — neither the claimed
`1 + prefix sum = 1`, nor the true position `tocPages + 1 = 3`; the printed
TOC page numbers are wrong under overflow. -/
theorem merge_startPage_tocOverflow_cex :
    (overflowRun.infoList.getD 0 default).startPageInFinal = 2
    ∧ overflowRun.tocPages = 2
    ∧ (overflowRun.infoList.getD 0 default).startPageInFinal
        ≠ 1 + ((overflowRun.infoList.take 0).map PageInfo.pageCount).sum
    ∧ (overflowRun.infoList.getD 0 default).startPageInFinal
        ≠ overflowRun.tocPages + 1 := by
  refine ⟨by decide, overflowRun_tocPages, by decide, ?_⟩
  rw [overflowRun_tocPages]
  decide

end PPT2Manual

namespace PPT2Manual

/-! ### C2: monotone start pages and the total page identity -/

theorem chain_lt_of_chain_step :
    ∀ (L : List PageInfo), (∀ p ∈ L, 0 < p.pageCount) →
      List.Chain' (fun a b => b.startPageInFinal = a.startPageInFinal + a.pageCount) L →
      List.Chain' (fun a b => a.startPageInFinal < b.startPageInFinal) L
  | [], _, _ => List.chain'_nil
  | [_], _, _ => List.chain'_singleton _
  | a :: b :: t, hpos, hch => by
    rw [List.chain'_cons] at hch ⊢
    refine ⟨?_, chain_lt_of_chain_step (b :: t) (fun p hp => hpos p (by simp [hp])) hch.2⟩
    have ha : 0 < a.pageCount := hpos a (by simp)
    omega

/-- Concrete merge run whose first document has zero pages: the next
document receives the same `start_page_in_final`. -/
def zeroPageRun : MergeRun :=
  mergePdfsWithBookmarks (fun f => if f = "a" then some 0 else some 1)
    [⟨"a", none, some 0⟩, ⟨"b", none, some 1⟩]

/-- C2 (amended): when every merged document has at least one page, the
`start_page_in_final` values are strictly increasing along the merge order
(whatever the TOC does); and when the TOC additionally fits on a single page,
the last document's `start + page_count - 1` equals the final document's
total page count.  A zero-page document repeats a start page, and a TOC
overflowing one page (26 or more entries) breaks the total-page identity by
the extra TOC pages the planner never accounts for. -/
theorem merge_startPage_monotone_total (fs : String → Option ℕ) (l : List PdfEntry)
    (hpos : ∀ p ∈ (mergePdfsWithBookmarks fs l).infoList, 0 < p.pageCount) :
    List.Pairwise (fun a b => a < b)
        ((mergePdfsWithBookmarks fs l).infoList.map PageInfo.startPageInFinal)
    ∧ (tocPageCount (mergePdfsWithBookmarks fs l).infoList.length = 1 →
        ((mergePdfsWithBookmarks fs l).infoList.getD
            ((mergePdfsWithBookmarks fs l).infoList.length - 1) default).startPageInFinal
          + ((mergePdfsWithBookmarks fs l).infoList.getD
            ((mergePdfsWithBookmarks fs l).infoList.length - 1) default).pageCount - 1
        = (mergePdfsWithBookmarks fs l).totalPages) := by
  rw [mergeRun_infoList] at hpos ⊢
  constructor
  · have hch := collectPageInfo_chain fs (pythonSortByOrder l) 0 0
    have hlt := chain_lt_of_chain_step _ hpos hch
    have hmap : List.Chain' (fun a b : ℕ => a < b)
        ((collectPageInfo fs (pythonSortByOrder l) 0 0).map PageInfo.startPageInFinal) :=
      (List.chain'_map PageInfo.startPageInFinal).mpr hlt
    exact List.chain'_iff_pairwise.mp hmap
  · intro htoc
    by_cases hne : collectPageInfo fs (pythonSortByOrder l) 0 0 = []
    · have htot : (mergePdfsWithBookmarks fs l).totalPages = 0 := by
        have hE : (collectPageInfo fs (pythonSortByOrder l) 0 0).isEmpty = true := by
          rw [hne]
          rfl
        unfold mergePdfsWithBookmarks
        dsimp only
        rw [if_pos hE]
      rw [hne, htot]
      rfl
    · have hs : (mergePdfsWithBookmarks fs l).success = true := by
        rw [mergeRun_success]
        simp only [Bool.not_eq_true', List.isEmpty_eq_false]
        exact hne
      have htot := mergeRun_totalPages fs l hs
      rw [mergeRun_infoList] at htot
      rw [htot, htoc]
      have hnpos : 0 < (collectPageInfo fs (pythonSortByOrder l) 0 0).length :=
        List.length_pos.mpr hne
      have hstart := collectPageInfo_start fs (pythonSortByOrder l) 0 0
        ((collectPageInfo fs (pythonSortByOrder l) 0 0).length - 1) (by omega)
      have hsum := map_sum_take_last PageInfo.pageCount default
        (collectPageInfo fs (pythonSortByOrder l) 0 0) hne
      omega

/-- C2 witness at two two-page documents with distinct ordering keys, with the
one-page-TOC side condition discharged as well. -/
theorem merge_startPage_monotone_total_witness :
    (∀ p ∈ (mergePdfsWithBookmarks (fun _ => some 2)
        [⟨"a", none, some 0⟩, ⟨"b", none, some 1⟩]).infoList, 0 < p.pageCount)
    ∧ tocPageCount (mergePdfsWithBookmarks (fun _ => some 2)
        [⟨"a", none, some 0⟩, ⟨"b", none, some 1⟩]).infoList.length = 1
    ∧ (List.Pairwise (fun a b => a < b)
        ((mergePdfsWithBookmarks (fun _ => some 2)
          [⟨"a", none, some 0⟩, ⟨"b", none, some 1⟩]).infoList.map
            PageInfo.startPageInFinal)
      ∧ ((mergePdfsWithBookmarks (fun _ => some 2)
            [⟨"a", none, some 0⟩, ⟨"b", none, some 1⟩]).infoList.getD
            ((mergePdfsWithBookmarks (fun _ => some 2)
              [⟨"a", none, some 0⟩, ⟨"b", none, some 1⟩]).infoList.length - 1)
            default).startPageInFinal
          + ((mergePdfsWithBookmarks (fun _ => some 2)
            [⟨"a", none, some 0⟩, ⟨"b", none, some 1⟩]).infoList.getD
            ((mergePdfsWithBookmarks (fun _ => some 2)
              [⟨"a", none, some 0⟩, ⟨"b", none, some 1⟩]).infoList.length - 1)
            default).pageCount - 1
        = (mergePdfsWithBookmarks (fun _ => some 2)
            [⟨"a", none, some 0⟩, ⟨"b", none, some 1⟩]).totalPages) := by
  have h1 : (∀ p ∈ (mergePdfsWithBookmarks (fun _ => some 2)
      [⟨"a", none, some 0⟩, ⟨"b", none, some 1⟩]).infoList, 0 < p.pageCount) := by
    decide
  have hlen : (mergePdfsWithBookmarks (fun _ => some 2)
      [⟨"a", none, some 0⟩, ⟨"b", none, some 1⟩]).infoList.length = 2 := by decide
  have h2 : tocPageCount (mergePdfsWithBookmarks (fun _ => some 2)
      [⟨"a", none, some 0⟩, ⟨"b", none, some 1⟩]).infoList.length = 1 := by
    rw [hlen, tocPageCount_two]
  have hc := merge_startPage_monotone_total (fun _ => some 2)
      [⟨"a", none, some 0⟩, ⟨"b", none, some 1⟩] h1
  exact ⟨h1, h2, hc.1, hc.2 h2⟩

/-- C2 counterexample, refuting both universally quantified parts of the
claim: a zero-page document gives two consecutive documents the same
`start_page_in_final` (so the sequence is not strictly increasing); and with
26 single-page documents the TOC spans 2 pages, the last document satisfies
`start + page_count - 1 = 27`, but the final document has 28 pages. -/
theorem merge_total_tocOverflow_cex :
    zeroPageRun.infoList.map PageInfo.startPageInFinal = [2, 2]
    ∧ ¬ List.Pairwise (fun a b => a < b)
        (zeroPageRun.infoList.map PageInfo.startPageInFinal)
    ∧ (∀ p ∈ overflowRun.infoList, 0 < p.pageCount)
    ∧ overflowRun.infoList.length = 26
    ∧ (overflowRun.infoList.getLast?.map fun p =>
        p.startPageInFinal + p.pageCount - 1) = some 27
    ∧ overflowRun.totalPages = 28
    ∧ (27 : ℕ) ≠ 28 := by
  have hmap : zeroPageRun.infoList.map PageInfo.startPageInFinal = [2, 2] := by
    decide
  refine ⟨hmap, ?_, by decide, by decide, by decide, overflowRun_totalPages, by decide⟩
  rw [hmap]
  intro h
  rw [List.pairwise_cons] at h
  exact absurd (h.1 2 (by simp)) (by omega)

end PPT2Manual

namespace PPT2Manual

/-! ### C7: unreadable documents are skipped; success iff one is readable -/

/-- C7: the merge succeeds exactly when at least one supplied document is
readable, and the merged documents are exactly the readable ones of the
sorted input, in order (unreadable ones are skipped and the merge goes on). -/
theorem merge_skips_unreadable_success_iff (fs : String → Option ℕ)
    (l : List PdfEntry) :
    ((mergePdfsWithBookmarks fs l).success = true
      ↔ ∃ e ∈ l, (fs e.file).isSome = true)
    ∧ (mergePdfsWithBookmarks fs l).infoList.map PageInfo.file
        = ((pythonSortByOrder l).filter fun e => (fs e.file).isSome).map
            PdfEntry.file := by
  have hfiles := collectPageInfo_files fs (pythonSortByOrder l) 0 0
  refine ⟨?_, by rw [mergeRun_infoList]; exact hfiles⟩
  rw [mergeRun_success]
  simp only [Bool.not_eq_true', List.isEmpty_eq_false]
  constructor
  · intro h
    have hmapne : (collectPageInfo fs (pythonSortByOrder l) 0 0).map PageInfo.file
        ≠ [] := by simpa using h
    rw [hfiles] at hmapne
    have hfilterne :
        (pythonSortByOrder l).filter (fun e => (fs e.file).isSome) ≠ [] := by
      intro hq
      rw [hq] at hmapne
      simp at hmapne
    obtain ⟨e, he⟩ := List.exists_mem_of_ne_nil _ hfilterne
    exact ⟨e, (List.perm_insertionSort orderLe l).mem_iff.mp
        (List.mem_filter.mp he).1, (List.mem_filter.mp he).2⟩
  · rintro ⟨e, hel, hsome⟩ hnil
    have hmem : e ∈ (pythonSortByOrder l).filter fun e => (fs e.file).isSome :=
      List.mem_filter.mpr
        ⟨(List.perm_insertionSort orderLe l).mem_iff.mpr hel, hsome⟩
    rw [hnil] at hfiles
    simp only [List.map_nil] at hfiles
    have hfe : (pythonSortByOrder l).filter (fun e => (fs e.file).isSome) = [] := by
      have hl := congrArg List.length hfiles
      simp only [List.length_nil, List.length_map] at hl
      exact List.length_eq_zero.mp hl.symm
    rw [hfe] at hmem
    simp at hmem

/-! ### C8: optimization failure is never propagated -/

/-- C8: once the merge has produced a valid output document, the run finishes
successfully whatever the optimization pass does; the boolean result of
`optimize_pdf` is ignored, and on an optimization failure the document at the
output path is untouched. -/
theorem optimize_failure_not_propagated (fs : String → Option ℕ)
    (l : List PdfEntry) (optOk : Bool)
    (h : (mergePdfsWithBookmarks fs l).success = true) :
    (runMergeAndOptimize fs l optOk).finished = true
    ∧ (runMergeAndOptimize fs l optOk).errored = false
    ∧ (runMergeAndOptimize fs l optOk).output
        = some (mergePdfsWithBookmarks fs l)
    ∧ optimizePdf false (mergePdfsWithBookmarks fs l)
        = (mergePdfsWithBookmarks fs l, false) := by
  unfold runMergeAndOptimize
  dsimp only
  rw [if_pos h]
  refine ⟨rfl, rfl, ?_, by simp [optimizePdf]⟩
  cases optOk <;> simp [optimizePdf]

/-- C8 witness with a failing optimization pass over a one-document merge. -/
theorem optimize_failure_not_propagated_witness :
    (mergePdfsWithBookmarks (fun _ => some 1) [⟨"x", none, none⟩]).success = true
    ∧ ((runMergeAndOptimize (fun _ => some 1) [⟨"x", none, none⟩] false).finished = true
      ∧ (runMergeAndOptimize (fun _ => some 1) [⟨"x", none, none⟩] false).errored = false
      ∧ (runMergeAndOptimize (fun _ => some 1) [⟨"x", none, none⟩] false).output
          = some (mergePdfsWithBookmarks (fun _ => some 1) [⟨"x", none, none⟩])
      ∧ optimizePdf false (mergePdfsWithBookmarks (fun _ => some 1) [⟨"x", none, none⟩])
          = (mergePdfsWithBookmarks (fun _ => some 1) [⟨"x", none, none⟩], false)) :=
  ⟨by decide, optimize_failure_not_propagated _ _ false (by decide)⟩

end PPT2Manual

namespace PPT2Manual

/-! ### C9: footer page numbers -/

/-- C9 (amended): every page of the merged document gets a footer reading
`- n -` from its 1-based continuous position, placed at
`x = (pageWidth - 5 * len(text)) / 2` — an estimate of 5 points per character,
not a measured width — at 40 points above the bottom edge, in the built-in
font `helv` at size 10, whatever font the font manager resolved. -/
theorem footer_estimate_spec (fs : String → Option ℕ) (l : List PdfEntry)
    (p : ℕ) (hs : (mergePdfsWithBookmarks fs l).success = true)
    (hp : p < (mergePdfsWithBookmarks fs l).totalPages) :
    (mergePdfsWithBookmarks fs l).footer.length
        = (mergePdfsWithBookmarks fs l).totalPages
    ∧ (mergePdfsWithBookmarks fs l).footer[p]?
        = some { x := (a4Width - ((footerText p).length : ℚ) * 5) / 2,
                 y := a4Height - 40, text := footerText p, fontsize := 10,
                 fontname := "helv" } := by
  rw [mergeRun_footer fs l hs]
  unfold addBottomPageNumbers
  constructor
  · simp
  · rw [List.getElem?_map, List.getElem?_range hp]
    rfl

/-- C9 witness on a one-document merge producing a two-page final document. -/
theorem footer_estimate_spec_witness :
    (mergePdfsWithBookmarks (fun _ => some 1) [⟨"x", none, none⟩]).success = true
    ∧ 0 < (mergePdfsWithBookmarks (fun _ => some 1) [⟨"x", none, none⟩]).totalPages
    ∧ ((mergePdfsWithBookmarks (fun _ => some 1) [⟨"x", none, none⟩]).footer.length
        = (mergePdfsWithBookmarks (fun _ => some 1) [⟨"x", none, none⟩]).totalPages
      ∧ (mergePdfsWithBookmarks (fun _ => some 1) [⟨"x", none, none⟩]).footer[0]?
          = some { x := (a4Width - ((footerText 0).length : ℚ) * 5) / 2,
                   y := a4Height - 40, text := footerText 0, fontsize := 10,
                   fontname := "helv" }) := by
  have hp : 0 < (mergePdfsWithBookmarks (fun _ => some 1)
      [⟨"x", none, none⟩]).totalPages := by
    rw [mergeRun_totalPages _ _ (by decide)]
    have hlen : (mergePdfsWithBookmarks (fun _ => some 1)
        [⟨"x", none, none⟩]).infoList.length = 1 := by decide
    rw [hlen, tocPageCount_one]
    omega
  exact ⟨by decide, hp, footer_estimate_spec _ _ 0 (by decide) hp⟩

/-- C9 counterexample: the footer insertion of page 1 uses the built-in font
name `helv` — not the resolved script font such as `SimHei` — and its
horizontal position comes from the `5 * len` width estimate (25 points for
`- 1 -`), not from any font metric. -/
theorem footer_builtin_font_cex :
    addBottomPageNumbers a4Width a4Height 1
      = [{ x := (a4Width - 25) / 2, y := a4Height - 40, text := "- 1 -",
           fontsize := 10, fontname := "helv" }]
    ∧ ((footerText 0).length : ℚ) * 5 = 25
    ∧ ("helv" : String) ≠ "SimHei" := by
  have ht : footerText 0 = "- 1 -" := rfl
  have hlen : (footerText 0).length = 5 := by decide
  refine ⟨?_, by rw [hlen]; norm_num, by decide⟩
  unfold addBottomPageNumbers
  have hr : List.range 1 = [0] := rfl
  have hlen5 : ("- 1 -" : String).length = 5 := rfl
  simp only [hr, List.map_cons, List.map_nil, ht, hlen5]
  norm_num

/-! ### C10: the in-place stable sort of the caller's list -/

theorem filter_key_orderedInsert (k : Int) (x : PdfEntry) :
    ∀ l : List PdfEntry,
      (List.orderedInsert orderLe x l).filter (fun e => orderKey e == k)
        = if orderKey x == k
          then x :: l.filter (fun e => orderKey e == k)
          else l.filter (fun e => orderKey e == k)
  | [] => by
    by_cases hk : orderKey x == k
    · simp [List.orderedInsert, List.filter_cons, hk]
    · simp [List.orderedInsert, List.filter_cons, hk]
  | b :: t => by
    simp only [List.orderedInsert]
    by_cases hxb : orderLe x b
    · rw [if_pos hxb]
      by_cases hk : orderKey x == k
      · simp [List.filter_cons, hk]
      · simp [List.filter_cons, hk]
    · rw [if_neg hxb]
      have hbx : orderKey b < orderKey x := by
        unfold orderLe at hxb
        omega
      have ih := filter_key_orderedInsert k x t
      by_cases hk : orderKey x == k
      · have hk' : orderKey x = k := by simpa using hk
        have hkb : ¬ orderKey b = k := by omega
        simp [List.filter_cons, ih, hk, hk', hkb]
      · simp [List.filter_cons, ih, hk]

theorem filter_key_insertionSort (k : Int) :
    ∀ l : List PdfEntry,
      (List.insertionSort orderLe l).filter (fun e => orderKey e == k)
        = l.filter (fun e => orderKey e == k)
  | [] => rfl
  | a :: t => by
    simp only [List.insertionSort]
    rw [filter_key_orderedInsert]
    by_cases hk : orderKey a == k
    · simp [List.filter_cons, hk, filter_key_insertionSort k t]
    · simp [List.filter_cons, hk, filter_key_insertionSort k t]

/-- C10: the merge's first action is sorting the caller's list in place by the
`'order'` key: the resulting list is a permutation of the input (records
themselves unchanged), nondecreasing in the key, where records with equal keys
keep their original relative order — and the caller observes it whether the
merge succeeds or fails. -/
theorem merge_sorts_in_place_stable (fs : String → Option ℕ) (l : List PdfEntry) :
    (mergePdfsWithBookmarks fs l).sortedList = pythonSortByOrder l
    ∧ (pythonSortByOrder l).Perm l
    ∧ List.Sorted orderLe (pythonSortByOrder l)
    ∧ ∀ k : Int, (pythonSortByOrder l).filter (fun e => orderKey e == k)
        = l.filter (fun e => orderKey e == k) :=
  ⟨mergeRun_sortedList fs l, List.perm_insertionSort orderLe l,
    List.sorted_insertionSort orderLe l, fun k => filter_key_insertionSort k l⟩

end PPT2Manual
